import Mathlib

/-!
Verification development for the MCU_Com similarity engine
(`src/mcu_compare/engine/similarity.py`).

The engine is a pure Python module; we embed it shallowly:

* Python numbers (int/float) are modelled as exact rationals `ℚ`.  All
  arithmetic performed by the engine (sums, divisions, min/max,
  comparisons) is exact here; statements about float tolerances
  (e.g. "sum equals 1.0 within 1e-9") are established in the stronger
  exact form.
* A Python attribute value is `Value` (number, string, bool, or `None`);
  a dictionary of attributes is `AttrSet := String → Option Value`
  (`Option.none` models an absent key, `Value.none` models the Python
  value `None`).
* Weight tables and per-feature score maps are insertion-ordered
  association lists `List (String × ℚ)`, matching Python dict iteration
  order.
* The Python builtins `float(·)`, `int(·)`, `bool(·)`, `str(·)` are
  modelled by `pyFloat`, `pyInt`, `truthy`, `pyStrOfV`.  The string
  parsers accept decimal literals with optional sign, fraction,
  exponent and digit-group underscores, as CPython does; the special
  non-finite forms ("inf"/"nan"), which have no rational value, are
  outside the model and treated as parse failures.  Exceptions raised
  by the builtins are modelled by `Option.none` results; every
  `try/except` of the source becomes a `match` on that option.
-/

set_option maxRecDepth 8000

namespace MCUCom

/-- A Python attribute value: a number (int or float, as an exact
rational), a string, a bool, or `None`. -/
inductive Value where
  | num  : ℚ → Value
  | str  : String → Value
  | bool : Bool → Value
  | none : Value
deriving DecidableEq

/-- An attribute set: a Python dict from feature names to values.
`Option.none` means the key is absent. -/
abbrev AttrSet := String → Option Value

/-- A weight table or per-feature score map: an insertion-ordered
association list, as a Python dict. -/
abbrev Weights := List (String × ℚ)

/-- Build an attribute set from an explicit list of key/value pairs. -/
def attrOf (l : List (String × Value)) : AttrSet :=
  fun k => (l.find? (fun kv => kv.1 == k)).map (fun kv => kv.2)

/-- Remove one key from an attribute set. -/
def removeKey (a : AttrSet) (k : String) : AttrSet :=
  fun x => if x = k then Option.none else a x

/-- Python truthiness `bool(x)` of a value: zero, the empty string,
`False` and `None` are falsy. -/
def truthy : Value → Bool
  | .num q => q != 0
  | .str s => s != ""
  | .bool b => b
  | .none => false

/-- Model of the Python expression `x or 0`. -/
def pyOrZero (v : Value) : Value :=
  if truthy v then v else .num 0

/-- Validity of a digit run in a Python numeric literal: digits with
single underscores allowed only between digits. -/
def digitRunValid : List Char → Bool
  | [] => false
  | c :: rest => c.isDigit && digitRunGo rest
where
  digitRunGo : List Char → Bool
  | [] => true
  | '_' :: c :: rest => c.isDigit && digitRunGo rest
  | c :: rest => c.isDigit && digitRunGo rest

/-- Numeric value of a digit run (underscores skipped). -/
def digitRunVal (l : List Char) : ℕ :=
  (l.filter (fun c => c != '_')).foldl (fun acc c => acc * 10 + (c.toNat - 48)) 0

/-- Number of digits in a digit run (underscores skipped). -/
def digitRunLen (l : List Char) : ℕ :=
  (l.filter (fun c => c != '_')).length

/-- Model of CPython `int(s)` on a string: strip whitespace, optional
sign, then a digit run.  `Option.none` models a raised `ValueError`. -/
def parsePyInt (s : String) : Option ℤ :=
  match s.trim.toList with
  | '+' :: rest => if digitRunValid rest then some (digitRunVal rest : ℤ) else Option.none
  | '-' :: rest => if digitRunValid rest then some (-(digitRunVal rest : ℤ)) else Option.none
  | l => if digitRunValid l then some (digitRunVal l : ℤ) else Option.none

/-- Mantissa of a float literal: `digits`, `digits.`, `.digits` or
`digits.digits`. -/
def parseMantissa (l : List Char) : Option ℚ :=
  match l.span (fun c => c != '.') with
  | (intPart, []) =>
      if digitRunValid intPart then some (digitRunVal intPart : ℚ) else Option.none
  | (intPart, _ :: fracPart) =>
      if intPart.isEmpty then
        if digitRunValid fracPart then
          some ((digitRunVal fracPart : ℚ) / (10 : ℚ) ^ digitRunLen fracPart)
        else Option.none
      else if fracPart.isEmpty then
        if digitRunValid intPart then some (digitRunVal intPart : ℚ) else Option.none
      else
        if digitRunValid intPart && digitRunValid fracPart then
          some ((digitRunVal intPart : ℚ)
            + (digitRunVal fracPart : ℚ) / (10 : ℚ) ^ digitRunLen fracPart)
        else Option.none

/-- Model of CPython `float(s)` on a string: strip whitespace, optional
sign, mantissa, optional exponent.  Non-finite forms ("inf", "nan")
have no rational value and are outside the model. -/
def parsePyFloat (s : String) : Option ℚ :=
  let l := s.trim.toList
  let signAndRest : ℚ × List Char :=
    match l with
    | '+' :: r => (1, r)
    | '-' :: r => (-1, r)
    | _ => (1, l)
  let sgn := signAndRest.1
  match signAndRest.2.span (fun c => c != 'e' && c != 'E') with
  | (mant, []) => (parseMantissa mant).map (fun m => sgn * m)
  | (mant, _ :: erest) =>
      let esignAndRest : ℤ × List Char :=
        match erest with
        | '+' :: r => (1, r)
        | '-' :: r => (-1, r)
        | _ => (1, erest)
      if digitRunValid esignAndRest.2 then
        (parseMantissa mant).map
          (fun m => sgn * m * (10 : ℚ) ^ (esignAndRest.1 * (digitRunVal esignAndRest.2 : ℤ)))
      else Option.none

/-- Model of CPython `float(x)`: numbers pass through, bools become
0/1, strings are parsed, `None` raises (`Option.none`). -/
def pyFloat : Value → Option ℚ
  | .num q => some q
  | .bool b => some (if b then 1 else 0)
  | .str s => parsePyFloat s
  | .none => Option.none

/-- Truncation of a rational toward zero, as CPython `int(float)`.
Both divisions have a non-negative numerator, where all integer
division conventions agree. -/
def pyTrunc (q : ℚ) : ℤ :=
  if 0 ≤ q then q.num / (q.den : ℤ) else -((-q).num / ((-q).den : ℤ))

/-- Model of CPython `int(x)`: numbers truncate toward zero, bools
become 0/1, strings are parsed, `None` raises (`Option.none`). -/
def pyInt : Value → Option ℤ
  | .num q => some (pyTrunc q)
  | .bool b => some (if b then 1 else 0)
  | .str s => parsePyInt s
  | .none => Option.none

/-- Decimal rendering of a number for `str(x)`.  Integers render
exactly; non-integral rationals use a fraction rendering (CPython would
print a decimal float; no engine code path compares such strings). -/
def ratRepr (q : ℚ) : String :=
  if q.den = 1 then toString q.num else toString q.num ++ "/" ++ toString q.den

/-- Model of CPython `str(x)` on an attribute value. -/
def pyStrOfV : Value → String
  | .num q => ratRepr q
  | .str s => s
  | .bool b => if b then "True" else "False"
  | .none => "None"

/-- Membership of `needle` as a prefix of `hay` (character lists). -/
def startsWithL : List Char → List Char → Bool
  | [], _ => true
  | _ :: _, [] => false
  | a :: as, b :: bs => a == b && startsWithL as bs

/-- Model of the Python substring test `needle in hay`. -/
def containsList (needle : List Char) : List Char → Bool
  | [] => needle.isEmpty
  | c :: rest => startsWithL needle (c :: rest) || containsList needle rest

/-- Ordered lookup in an association list (Python `d[k]` / `d.get(k)`). -/
def lookupA {α : Type} (l : List (String × α)) (k : String) : Option α :=
  (l.find? (fun kv => kv.1 == k)).map (fun kv => kv.2)

/-- Sum of a weight table's values (Python `sum(d.values())`). -/
def sumWeights (w : Weights) : ℚ :=
  (w.map Prod.snd).sum

/-! ## The engine constants (`similarity.py`, lines 4-60) -/

/-- The `CORE_FAMILIES` lookup table of the source. -/
def CORE_FAMILIES : List (String × String) :=
  [("ARM Cortex-M0", "ARM_Cortex_M"),
   ("ARM Cortex-M0+", "ARM_Cortex_M"),
   ("ARM Cortex-M3", "ARM_Cortex_M"),
   ("ARM Cortex-M4", "ARM_Cortex_M"),
   ("ARM Cortex-M7", "ARM_Cortex_M"),
   ("ARM Cortex-M23", "ARM_Cortex_M"),
   ("ARM Cortex-M33", "ARM_Cortex_M"),
   ("ARM Cortex-M55", "ARM_Cortex_M"),
   ("RISC-V", "RISC_V"),
   ("RV32IMC", "RISC_V"),
   ("RV32I", "RISC_V"),
   ("RV64I", "RISC_V"),
   ("FREE-RISC", "RISC_V"),
   ("AVR", "AVR"),
   ("8051", "C51"),
   ("PIC", "PIC")]

/-- The `DEFAULT_WEIGHTS` table of the source, in insertion order,
with the source's decimal literals as exact rationals. -/
def DEFAULT_WEIGHTS : Weights :=
  [("core", 0),
   ("core_mark", 0),
   ("dsp_core", 1/50),
   ("fpu", 3/20),
   ("max_clock_mhz", 1/10),
   ("flash_kb", 1/20),
   ("sram_kb", 1/20),
   ("eeprom", 1/100),
   ("gpios", 1/20),
   ("uarts", 1/20),
   ("spis", 1/20),
   ("i2cs", 1/20),
   ("pwms", 1/20),
   ("timers", 1/20),
   ("dacs", 1/50),
   ("adcs", 3/100),
   ("cans", 3/100),
   ("power_mgmt", 3/100),
   ("clock_mgmt", 3/100),
   ("qei", 1/25),
   ("internal_osc", 1/25),
   ("security_features", 1/20),
   ("output_compare", 1/50),
   ("input_capture", 1/50),
   ("qspi", 3/100),
   ("ethernet", 1/25),
   ("emif", 3/100),
   ("spi_slave", 1/50),
   ("ext_interrupts", 3/100)]

/-- The `BOOL_DIR` set of `feature_similarity` (lines 127-129). -/
def BOOL_DIR : List String :=
  ["input_capture", "ethernet", "emif", "spi_slave"]

/-! ## Feature-level similarity (`similarity.py`, lines 70-147) -/

/-- `core_similarity` (lines 70-79): empty on either side scores 0,
equality scores 1, same core family scores 0.8, anything else 0. -/
def core_similarity (a b : String) : ℚ :=
  if a = "" ∨ b = "" then 0
  else if a = b then 1
  else if (lookupA CORE_FAMILIES a).getD a = (lookupA CORE_FAMILIES b).getD b then 4/5
  else 0

/-- `coverage_similarity` (lines 90-106): directional coverage of a
requirement by an offer, with the source's `float(x or 0)` coercion;
a parse failure (the `except` branch) returns 0. -/
def coverage_similarity (requirement offer : Value) : ℚ :=
  match pyFloat (pyOrZero requirement), pyFloat (pyOrZero offer) with
  | some req, some off => if req ≤ 0 then 1 else if off ≤ 0 then 0 else min 1 (off / req)
  | _, _ => 0

/-- The local coercion `_to01` of `feature_similarity` (lines 131-139):
recognized truthy/falsy string forms, then numeric parse compared with
zero, with Python truthiness as the `except` fallback. -/
def to01 (x : Value) : ℚ :=
  match x with
  | .str s =>
      let xl := s.trim.toLower
      if xl ∈ ["yes", "true", "1", "y", "on"] then 1
      else if xl ∈ ["no", "false", "0", "off", ""] then 0
      else
        match parsePyFloat s with
        | some f => if 0 < f then 1 else 0
        | Option.none => if truthy (.str s) then 1 else 0
  | v =>
      match pyFloat v with
      | some f => if 0 < f then 1 else 0
      | Option.none => if truthy v then 1 else 0

/-- `feature_similarity` (lines 109-147): dispatch on the feature name,
exactly mirroring the source's if-chain. -/
def feature_similarity (feature : String) (comp_val our_val : Value) : ℚ :=
  if feature = "core" then
    core_similarity (pyStrOfV comp_val) (pyStrOfV our_val)
  else if feature = "core_mark" then
    coverage_similarity comp_val our_val
  else if feature = "fpu" then
    match pyFloat (pyOrZero comp_val), pyFloat (pyOrZero our_val) with
    | some cf, some ov => coverage_similarity (.num cf) (.num ov)
    | _, _ => 0
  else if feature ∈ BOOL_DIR then
    coverage_similarity (.num (to01 comp_val)) (.num (to01 our_val))
  else
    match pyFloat (pyOrZero comp_val), pyFloat (pyOrZero our_val) with
    | some xa, some xb => coverage_similarity (.num xa) (.num xb)
    | _, _ => 0

/-! ## Weight derivation (`similarity.py`, lines 150-179) -/

/-- The competitor's clock requirement
`float(a.get('max_clock_mhz') or 0)` with 0 on parse failure
(lines 155-158). -/
def reqClock (a : AttrSet) : ℚ :=
  (pyFloat (pyOrZero ((a "max_clock_mhz").getD .none))).getD 0

/-- The default clock weight `base['max_clock_mhz']` (equals 0.10). -/
def defaultClockW : ℚ :=
  (lookupA DEFAULT_WEIGHTS "max_clock_mhz").getD 0

/-- The dynamically chosen clock weight (lines 159-163). -/
def targetClockW (a : AttrSet) : ℚ :=
  if 300 < reqClock a then 1/5
  else if 200 < reqClock a then 3/20
  else defaultClockW

/-- The adjusted table before final normalization (lines 164-174):
when the clock weight changes by more than 1e-9, every other weight is
scaled by `(total - target) / (total - old)`. -/
def adjustedOf (t : ℚ) : Weights :=
  if 1/1000000000 < |t - defaultClockW| then
    let total_default := sumWeights DEFAULT_WEIGHTS
    let remaining_default := total_default - defaultClockW
    let remaining_target := total_default - t
    let scale := if 0 < remaining_default then remaining_target / remaining_default else 1
    DEFAULT_WEIGHTS.map
      (fun kv => if kv.1 = "max_clock_mhz" then (kv.1, t) else (kv.1, kv.2 * scale))
  else DEFAULT_WEIGHTS

/-- Final normalization of the adjusted table (lines 175-178). -/
def effWOf (t : ℚ) : Weights :=
  let base2 := adjustedOf t
  let total_after := sumWeights base2
  if 0 < total_after then base2.map (fun kv => (kv.1, kv.2 / total_after)) else base2

/-- The effective weight table `weighted_similarity` builds when no
explicit table is passed (lines 151-179). -/
def effectiveWeights (a : AttrSet) : Weights :=
  effWOf (targetClockW a)

/-- The weight table actually used: the caller's, or the derived
default. -/
def weightsUsed (a : AttrSet) (w : Option Weights) : Weights :=
  w.getD (effectiveWeights a)

/-! ## Business-rule flags (`similarity.py`, lines 180-188, 205-215) -/

/-- The string `str(a.get('core', '') or '')` (line 181). -/
def coreStr (a : AttrSet) : String :=
  pyStrOfV (if truthy ((a "core").getD (.str "")) then (a "core").getD (.str "") else .str "")

/-- The FPGA flag `bool(int(a.get('is_fpga', 0)))`, with
`bool(a.get('is_fpga'))` as the `except` fallback (lines 182-186). -/
def isFpgaFlag (a : AttrSet) : Bool :=
  match pyInt ((a "is_fpga").getD (.num 0)) with
  | some n => n != 0
  | Option.none => truthy ((a "is_fpga").getD .none)

/-- The substring test `'fpga' in core_str.lower()` (line 187). -/
def coreHasFpga (a : AttrSet) : Bool :=
  containsList "fpga".toList (coreStr a).toLower.toList

/-- The full disqualification condition of line 187. -/
def fpgaDisq (a : AttrSet) : Bool :=
  isFpgaFlag a || coreHasFpga a

/-- The DSP flag parse of lines 206-215: strings via a recognized
truthy list, numbers via `bool(int(val))`, bools as `int` instances,
anything else via truthiness; the `except` branch is unreachable over
rationals. -/
def isDspFlag (a : AttrSet) : Bool :=
  match (a "is_dsp").getD (.num 0) with
  | .str s => ["1", "true", "yes", "y"].contains s.trim.toLower
  | .num q => pyTrunc q != 0
  | .bool b => b
  | .none => false

/-! ## The matcher (`similarity.py`, lines 150-231) -/

/-- The alias-aware lookup `_get` of lines 194-197: `dsp_core` may be
supplied under the key `DSP`. -/
def getF (d : AttrSet) (feat : String) : Value :=
  if feat = "dsp_core" then
    match d "dsp_core" with
    | some v => v
    | Option.none => (d "DSP").getD .none
  else (d feat).getD .none

/-- The per-feature score dict built by the loop of lines 198-201. -/
def perFeatureOf (a b : AttrSet) (w : Weights) : List (String × ℚ) :=
  w.map (fun kv => (kv.1, feature_similarity kv.1 (getF a kv.1) (getF b kv.1)))

/-- The accumulated `score` of the same loop. -/
def scoreOf (a b : AttrSet) (w : Weights) : ℚ :=
  (w.map (fun kv => kv.2 * feature_similarity kv.1 (getF a kv.1) (getF b kv.1))).sum

/-- `weighted_similarity` (lines 150-218): derive weights, apply the
FPGA disqualification, aggregate, guard a non-positive total weight,
and apply the DSP penalty. -/
def weighted_similarity (a b : AttrSet) (weights? : Option Weights) :
    ℚ × List (String × ℚ) :=
  if fpgaDisq a then
    (0, (weightsUsed a weights?).map (fun kv => (kv.1, (0 : ℚ))))
  else if sumWeights (weightsUsed a weights?) ≤ 0 then
    (0, perFeatureOf a b (weightsUsed a weights?))
  else
    ((if isDspFlag a then
        max 0 (scoreOf a b (weightsUsed a weights?)
          / sumWeights (weightsUsed a weights?) * 100 - 20)
      else
        scoreOf a b (weightsUsed a weights?)
          / sumWeights (weightsUsed a weights?) * 100),
     perFeatureOf a b (weightsUsed a weights?))

/-- The scan loop of `best_match` (lines 225-230), with the running
triple as an explicit accumulator. -/
def bestGo (t : AttrSet) (w : Option Weights) :
    List AttrSet → Option AttrSet × ℚ × List (String × ℚ) →
    Option AttrSet × ℚ × List (String × ℚ)
  | [], acc => acc
  | c :: cs, acc =>
      bestGo t w cs
        (if acc.2.1 < (weighted_similarity t c w).1 then
          (some c, (weighted_similarity t c w).1, (weighted_similarity t c w).2)
        else acc)

/-- `best_match` (lines 221-231): linear scan with strict `>` against
a running maximum initialized to `(None, -1.0, {})`. -/
def best_match (target : AttrSet) (candidates : List AttrSet) (w : Option Weights) :
    Option AttrSet × ℚ × List (String × ℚ) :=
  bestGo target w candidates (Option.none, -1, [])

/-! ## Basic bounds of the feature-level similarity functions -/

lemma coverage_similarity_bounds (r o : Value) :
    0 ≤ coverage_similarity r o ∧ coverage_similarity r o ≤ 1 := by
  unfold coverage_similarity
  rcases pyFloat (pyOrZero r) with _ | req <;> rcases pyFloat (pyOrZero o) with _ | off <;>
    simp only []
  · exact ⟨le_refl 0, by norm_num⟩
  · exact ⟨le_refl 0, by norm_num⟩
  · exact ⟨le_refl 0, by norm_num⟩
  · split_ifs with h1 h2
    · exact ⟨by norm_num, le_refl 1⟩
    · exact ⟨le_refl 0, by norm_num⟩
    · refine ⟨le_min (by norm_num) ?_, min_le_left _ _⟩
      exact le_of_lt (div_pos (lt_of_not_le h2) (lt_of_not_le h1))

lemma core_similarity_bounds (a b : String) :
    0 ≤ core_similarity a b ∧ core_similarity a b ≤ 1 := by
  unfold core_similarity
  split_ifs <;> norm_num

lemma feature_similarity_bounds (f : String) (cv ov : Value) :
    0 ≤ feature_similarity f cv ov ∧ feature_similarity f cv ov ≤ 1 := by
  unfold feature_similarity
  split_ifs
  · exact core_similarity_bounds _ _
  · exact coverage_similarity_bounds _ _
  · rcases pyFloat (pyOrZero cv) with _ | cf <;> rcases pyFloat (pyOrZero ov) with _ | vf <;>
      simp only [] <;>
      first
      | exact ⟨le_refl 0, by norm_num⟩
      | exact coverage_similarity_bounds _ _
  · exact coverage_similarity_bounds _ _
  · rcases pyFloat (pyOrZero cv) with _ | cf <;> rcases pyFloat (pyOrZero ov) with _ | vf <;>
      simp only [] <;>
      first
      | exact ⟨le_refl 0, by norm_num⟩
      | exact coverage_similarity_bounds _ _

/-! ## Facts about the aggregation loop -/

lemma perFeatureOf_keys (a b : AttrSet) (w : Weights) :
    (perFeatureOf a b w).map Prod.fst = w.map Prod.fst := by
  simp [perFeatureOf]

lemma perFeatureOf_bounds (a b : AttrSet) (w : Weights) :
    ∀ kv ∈ perFeatureOf a b w, 0 ≤ kv.2 ∧ kv.2 ≤ 1 := by
  intro kv hkv
  simp only [perFeatureOf, List.mem_map] at hkv
  obtain ⟨x, _, rfl⟩ := hkv
  exact feature_similarity_bounds _ _ _

lemma scoreOf_cons (a b : AttrSet) (kv : String × ℚ) (w : Weights) :
    scoreOf a b (kv :: w)
      = kv.2 * feature_similarity kv.1 (getF a kv.1) (getF b kv.1) + scoreOf a b w := by
  simp [scoreOf]

lemma sumWeights_cons (kv : String × ℚ) (w : Weights) :
    sumWeights (kv :: w) = kv.2 + sumWeights w := by
  simp [sumWeights]

lemma scoreOf_bounds (a b : AttrSet) :
    ∀ w : Weights, (∀ kv ∈ w, 0 ≤ kv.2) →
      0 ≤ scoreOf a b w ∧ scoreOf a b w ≤ sumWeights w := by
  intro w
  induction w with
  | nil => intro _; exact ⟨le_refl 0, le_refl 0⟩
  | cons kv rest ih =>
      intro h
      have hkv : 0 ≤ kv.2 := h kv (List.mem_cons_self kv rest)
      have hrest := ih (fun x hx => h x (List.mem_cons_of_mem kv hx))
      obtain ⟨hs0, hs1⟩ := feature_similarity_bounds kv.1 (getF a kv.1) (getF b kv.1)
      rw [scoreOf_cons, sumWeights_cons]
      constructor
      · exact add_nonneg (mul_nonneg hkv hs0) hrest.1
      · exact add_le_add (mul_le_of_le_one_right hkv hs1) hrest.2

/-! ## Facts about the derived default weight table -/

lemma targetClockW_mem (a : AttrSet) :
    targetClockW a = 1/5 ∨ targetClockW a = 3/20 ∨ targetClockW a = defaultClockW := by
  unfold targetClockW
  split_ifs <;> simp

lemma effWOf_fixed_facts :
    ∀ t ∈ [(1:ℚ)/5, 3/20, defaultClockW],
      sumWeights (effWOf t) = 1 ∧ (∀ kv ∈ effWOf t, 0 ≤ kv.2) ∧
      (effWOf t).map Prod.fst = DEFAULT_WEIGHTS.map Prod.fst := by
  with_unfolding_all decide

lemma effectiveWeights_sum (a : AttrSet) : sumWeights (effectiveWeights a) = 1 := by
  unfold effectiveWeights
  rcases targetClockW_mem a with h | h | h <;> rw [h] <;>
    exact (effWOf_fixed_facts _ (by simp)).1

lemma effectiveWeights_nonneg (a : AttrSet) :
    ∀ kv ∈ effectiveWeights a, 0 ≤ kv.2 := by
  unfold effectiveWeights
  rcases targetClockW_mem a with h | h | h <;> rw [h] <;>
    exact (effWOf_fixed_facts _ (by simp)).2.1

lemma effectiveWeights_keys (a : AttrSet) :
    (effectiveWeights a).map Prod.fst = DEFAULT_WEIGHTS.map Prod.fst := by
  unfold effectiveWeights
  rcases targetClockW_mem a with h | h | h <;> rw [h] <;>
    exact (effWOf_fixed_facts _ (by simp)).2.2

/-! ## Range of `weighted_similarity` -/

lemma weighted_similarity_bounds (a b : AttrSet) (w? : Option Weights)
    (hw : ∀ kv ∈ weightsUsed a w?, 0 ≤ kv.2) :
    0 ≤ (weighted_similarity a b w?).1 ∧ (weighted_similarity a b w?).1 ≤ 100 ∧
    ∀ kv ∈ (weighted_similarity a b w?).2, 0 ≤ kv.2 ∧ kv.2 ≤ 1 := by
  unfold weighted_similarity
  split_ifs with hq ht hd
  · refine ⟨le_refl 0, by norm_num, ?_⟩
    intro kv hkv
    simp only [List.mem_map] at hkv
    obtain ⟨x, _, rfl⟩ := hkv
    exact ⟨le_refl 0, by norm_num⟩
  · exact ⟨le_refl 0, by norm_num, perFeatureOf_bounds a b _⟩
  · have htot : 0 < sumWeights (weightsUsed a w?) := lt_of_not_le ht
    obtain ⟨hs0, hs1⟩ := scoreOf_bounds a b (weightsUsed a w?) hw
    have hfrac : scoreOf a b (weightsUsed a w?) / sumWeights (weightsUsed a w?) ≤ 1 :=
      (div_le_one htot).2 hs1
    have hfrac0 : 0 ≤ scoreOf a b (weightsUsed a w?) / sumWeights (weightsUsed a w?) :=
      div_nonneg hs0 (le_of_lt htot)
    refine ⟨le_max_left 0 _, ?_, perFeatureOf_bounds a b _⟩
    apply max_le (by norm_num)
    nlinarith
  · have htot : 0 < sumWeights (weightsUsed a w?) := lt_of_not_le ht
    obtain ⟨hs0, hs1⟩ := scoreOf_bounds a b (weightsUsed a w?) hw
    have hfrac : scoreOf a b (weightsUsed a w?) / sumWeights (weightsUsed a w?) ≤ 1 :=
      (div_le_one htot).2 hs1
    have hfrac0 : 0 ≤ scoreOf a b (weightsUsed a w?) / sumWeights (weightsUsed a w?) :=
      div_nonneg hs0 (le_of_lt htot)
    refine ⟨by nlinarith, by nlinarith, perFeatureOf_bounds a b _⟩

/-- The default-table score is never negative: the form used by
`best_match` reasoning. -/
lemma ws_default_nonneg (a b : AttrSet) :
    0 ≤ (weighted_similarity a b Option.none).1 :=
  (weighted_similarity_bounds a b Option.none (effectiveWeights_nonneg a)).1

/-! ## The scan invariant of `best_match` -/

/-- Invariant of the `best_match` loop: starting from a provisional
best candidate `d`, the loop returns either `d` (if nothing beats it)
or the first strictly-better-than-everything-before-it candidate. -/
lemma bestGo_spec (t : AttrSet) :
    ∀ (cs : List AttrSet) (d : AttrSet),
      ∃ r, bestGo t Option.none cs
            (some d, (weighted_similarity t d Option.none).1,
              (weighted_similarity t d Option.none).2)
          = (some r, (weighted_similarity t r Option.none).1,
              (weighted_similarity t r Option.none).2)
        ∧ (weighted_similarity t d Option.none).1 ≤ (weighted_similarity t r Option.none).1
        ∧ (∀ c ∈ cs,
            (weighted_similarity t c Option.none).1 ≤ (weighted_similarity t r Option.none).1)
        ∧ (r = d ∨ ∃ l₁ l₂, cs = l₁ ++ r :: l₂
            ∧ (weighted_similarity t d Option.none).1 < (weighted_similarity t r Option.none).1
            ∧ ∀ c ∈ l₁,
                (weighted_similarity t c Option.none).1
                  < (weighted_similarity t r Option.none).1) := by
  intro cs
  induction cs with
  | nil =>
      intro d
      exact ⟨d, rfl, le_refl _, by simp, Or.inl rfl⟩
  | cons c rest ih =>
      intro d
      by_cases h : (weighted_similarity t d Option.none).1
          < (weighted_similarity t c Option.none).1
      · obtain ⟨r, heq, hdr, hall, hpos⟩ := ih c
        refine ⟨r, ?_, le_of_lt (lt_of_lt_of_le h hdr), ?_, ?_⟩
        · show bestGo t Option.none rest
            (if (weighted_similarity t d Option.none).1
                < (weighted_similarity t c Option.none).1 then _ else _) = _
          rw [if_pos h]
          exact heq
        · intro x hx
          rcases List.mem_cons.1 hx with hx' | hx'
          · exact hx' ▸ hdr
          · exact hall x hx'
        · rcases hpos with rfl | ⟨l₁, l₂, hsplit, hcr, hl₁⟩
          · exact Or.inr ⟨[], rest, rfl, h, by simp⟩
          · refine Or.inr ⟨c :: l₁, l₂, by rw [hsplit, List.cons_append], lt_trans h hcr, ?_⟩
            intro x hx
            rcases List.mem_cons.1 hx with hx' | hx'
            · exact hx' ▸ hcr
            · exact hl₁ x hx'
      · obtain ⟨r, heq, hdr, hall, hpos⟩ := ih d
        refine ⟨r, ?_, hdr, ?_, ?_⟩
        · show bestGo t Option.none rest
            (if (weighted_similarity t d Option.none).1
                < (weighted_similarity t c Option.none).1 then _ else _) = _
          rw [if_neg h]
          exact heq
        · intro x hx
          rcases List.mem_cons.1 hx with hx' | hx'
          · exact hx' ▸ le_trans (not_lt.1 h) hdr
          · exact hall x hx'
        · rcases hpos with rfl | ⟨l₁, l₂, hsplit, hdrlt, hl₁⟩
          · exact Or.inl rfl
          · refine Or.inr ⟨c :: l₁, l₂, by rw [hsplit, List.cons_append], hdrlt, ?_⟩
            intro x hx
            rcases List.mem_cons.1 hx with hx' | hx'
            · exact hx' ▸ lt_of_le_of_lt (not_lt.1 h) hdrlt
            · exact hl₁ x hx'

/-! ## Congruence in the competitor argument (used for the DSP rule) -/

lemma removeKey_ne (a : AttrSet) (k x : String) (h : x ≠ k) :
    removeKey a k x = a x := by
  simp [removeKey, h]

lemma reqClock_removeDsp (a : AttrSet) :
    reqClock (removeKey a "is_dsp") = reqClock a := by
  unfold reqClock
  rw [removeKey_ne a "is_dsp" "max_clock_mhz" (by decide)]

lemma effectiveWeights_removeDsp (a : AttrSet) :
    effectiveWeights (removeKey a "is_dsp") = effectiveWeights a := by
  unfold effectiveWeights targetClockW
  rw [reqClock_removeDsp]

lemma fpgaDisq_removeDsp (a : AttrSet) :
    fpgaDisq (removeKey a "is_dsp") = fpgaDisq a := by
  unfold fpgaDisq isFpgaFlag coreHasFpga coreStr
  rw [removeKey_ne a "is_dsp" "is_fpga" (by decide),
    removeKey_ne a "is_dsp" "core" (by decide)]

lemma isDspFlag_removeDsp (a : AttrSet) :
    isDspFlag (removeKey a "is_dsp") = false := by
  unfold isDspFlag removeKey
  simp [pyTrunc]

lemma getF_removeDsp (a : AttrSet) (f : String) (h : f ≠ "is_dsp") :
    getF (removeKey a "is_dsp") f = getF a f := by
  unfold getF
  split_ifs with hf
  · rw [removeKey_ne a "is_dsp" "dsp_core" (by decide),
      removeKey_ne a "is_dsp" "DSP" (by decide)]
  · rw [removeKey_ne a "is_dsp" f h]

lemma perFeatureOf_removeDsp (a b : AttrSet) (w : Weights)
    (hk : ∀ kv ∈ w, kv.1 ≠ "is_dsp") :
    perFeatureOf (removeKey a "is_dsp") b w = perFeatureOf a b w := by
  unfold perFeatureOf
  apply List.map_congr_left
  intro kv hkv
  rw [getF_removeDsp a kv.1 (hk kv hkv)]

lemma scoreOf_removeDsp (a b : AttrSet) (w : Weights)
    (hk : ∀ kv ∈ w, kv.1 ≠ "is_dsp") :
    scoreOf (removeKey a "is_dsp") b w = scoreOf a b w := by
  unfold scoreOf
  congr 1
  apply List.map_congr_left
  intro kv hkv
  rw [getF_removeDsp a kv.1 (hk kv hkv)]

lemma effectiveWeights_no_dsp_key (a : AttrSet) :
    ∀ kv ∈ effectiveWeights a, kv.1 ≠ "is_dsp" := by
  intro kv hkv
  have hmem : kv.1 ∈ (effectiveWeights a).map Prod.fst := List.mem_map_of_mem Prod.fst hkv
  rw [effectiveWeights_keys] at hmem
  intro hcontra
  rw [hcontra] at hmem
  revert hmem
  with_unfolding_all decide

/-! ## Shape lemmas for the two branches of `weighted_similarity` -/

lemma weightsUsed_none (a : AttrSet) :
    weightsUsed a Option.none = effectiveWeights a := rfl

/-- In the disqualification branch, the result is zero with an
all-zero score map over the table in use. -/
lemma ws_fpga (a b : AttrSet) (w? : Option Weights) (h : fpgaDisq a = true) :
    weighted_similarity a b w?
      = (0, (weightsUsed a w?).map (fun kv => (kv.1, (0 : ℚ)))) := by
  unfold weighted_similarity
  rw [h]
  simp

/-- Without disqualification and with the default table, the score map
is the per-feature map over the derived weights. -/
lemma ws_default_pf (a b : AttrSet) (h : fpgaDisq a = false) :
    (weighted_similarity a b Option.none).2
      = perFeatureOf a b (effectiveWeights a) := by
  unfold weighted_similarity
  rw [h]
  have hns : ¬ sumWeights (weightsUsed a Option.none) ≤ 0 := by
    rw [weightsUsed_none, effectiveWeights_sum]
    norm_num
  simp only [Bool.false_eq_true, if_false, weightsUsed_none]
  rw [if_neg (by rw [effectiveWeights_sum]; norm_num : ¬ sumWeights (effectiveWeights a) ≤ 0)]

/-- The derived default weight table always starts with the `core`
entry. -/
lemma effectiveWeights_head (a : AttrSet) :
    ∃ q rest, effectiveWeights a = ("core", q) :: rest := by
  have h := effectiveWeights_keys a
  rcases he : effectiveWeights a with _ | ⟨kv, rest⟩
  · rw [he] at h
    exact absurd h (by with_unfolding_all decide)
  · rw [he] at h
    have h1 : kv.1 = "core" := by
      have hh := congrArg List.head? h
      simp only [List.map_cons, List.head?_cons] at hh
      have : (DEFAULT_WEIGHTS.map Prod.fst).head? = some "core" := by
        with_unfolding_all decide
    -- kv.1 is the head of the default key list
      rw [this] at hh
      exact Option.some.inj hh
    exact ⟨kv.2, rest, by rw [← h1]⟩

lemma lookupA_pf_core (a b : AttrSet) :
    lookupA (perFeatureOf a b (effectiveWeights a)) "core"
      = some (feature_similarity "core" (getF a "core") (getF b "core")) := by
  obtain ⟨q, rest, he⟩ := effectiveWeights_head a
  rw [he]
  simp [perFeatureOf, lookupA]

lemma lookupA_zero_core (a : AttrSet) :
    lookupA ((effectiveWeights a).map (fun kv => (kv.1, (0 : ℚ)))) "core" = some 0 := by
  obtain ⟨q, rest, he⟩ := effectiveWeights_head a
  rw [he]
  simp [lookupA]

/-! ## Small dispatch lemmas for `feature_similarity` -/

lemma feature_similarity_core (cv ov : Value) :
    feature_similarity "core" cv ov = core_similarity (pyStrOfV cv) (pyStrOfV ov) := by
  unfold feature_similarity
  rw [if_pos rfl]

lemma getF_core (d : AttrSet) : getF d "core" = (d "core").getD .none := by
  unfold getF
  rw [if_neg (by decide)]

lemma coverage_fail_zero (r o : Value)
    (h : pyFloat (pyOrZero r) = Option.none ∨ pyFloat (pyOrZero o) = Option.none) :
    coverage_similarity r o = 0 := by
  unfold coverage_similarity
  rcases h with h | h
  · rw [h]
  · rw [h]
    rcases pyFloat (pyOrZero r) with _ | q <;> rfl

/-! ## Facts about the core-family table -/

lemma lookupA_mem_snd {α : Type} (l : List (String × α)) (k : String) (v : α)
    (h : lookupA l k = some v) : v ∈ l.map Prod.snd := by
  unfold lookupA at h
  obtain ⟨kv, hfind, hv⟩ := Option.map_eq_some'.mp h
  have hmem := List.mem_of_find?_eq_some hfind
  exact hv ▸ List.mem_map_of_mem Prod.snd hmem

lemma core_family_snd_ne_none :
    ∀ v ∈ CORE_FAMILIES.map Prod.snd, v ≠ "None" := by
  decide

lemma core_similarity_none_left (s : String) (hne : s ≠ "None") :
    core_similarity "None" s = 0 := by
  by_cases hemp : s = ""
  · subst hemp
    with_unfolding_all decide
  · unfold core_similarity
    have h1 : ¬(("None" : String) = "" ∨ s = "") := by
      rintro (h | h)
      · exact absurd h (by decide)
      · exact hemp h
    have h2 : ¬(("None" : String) = s) := fun h => hne h.symm
    have h3 : (lookupA CORE_FAMILIES "None").getD "None"
        ≠ (lookupA CORE_FAMILIES s).getD s := by
      have hN : (lookupA CORE_FAMILIES "None").getD "None" = "None" := by decide
      rw [hN]
      rcases hl : lookupA CORE_FAMILIES s with _ | fam
      · simpa using fun h => hne h.symm
      · simp only [Option.getD_some]
        have hmem := lookupA_mem_snd CORE_FAMILIES s fam hl
        exact fun hc => core_family_snd_ne_none fam hmem hc.symm
    rw [if_neg h1, if_neg h2, if_neg h3]

lemma core_similarity_none_right (s : String) (hne : s ≠ "None") :
    core_similarity s "None" = 0 := by
  by_cases hemp : s = ""
  · subst hemp
    with_unfolding_all decide
  · unfold core_similarity
    have h1 : ¬(s = "" ∨ ("None" : String) = "") := by
      rintro (h | h)
      · exact hemp h
      · exact absurd h (by decide)
    have h3 : (lookupA CORE_FAMILIES s).getD s
        ≠ (lookupA CORE_FAMILIES "None").getD "None" := by
      have hN : (lookupA CORE_FAMILIES "None").getD "None" = "None" := by decide
      rw [hN]
      rcases hl : lookupA CORE_FAMILIES s with _ | fam
      · simpa using hne
      · simp only [Option.getD_some]
        exact core_family_snd_ne_none fam (lookupA_mem_snd CORE_FAMILIES s fam hl)
    rw [if_neg h1, if_neg hne, if_neg h3]

/-! ## Claim theorems -/

/-- C1: for every competitor and candidate attribute set, if the
competitor's core string contains "fpga" in any letter case, or its
`is_fpga` flag is truthy, then `weighted_similarity` returns overall
percentage exactly 0 and a per-feature score map assigning 0 to every
feature of the weight table in use. -/
theorem fpga_disqualification_zeroes (a b : AttrSet) (w? : Option Weights)
    (h : coreHasFpga a = true ∨ isFpgaFlag a = true) :
    (weighted_similarity a b w?).1 = 0 ∧
    (weighted_similarity a b w?).2
      = (weightsUsed a w?).map (fun kv => (kv.1, (0 : ℚ))) := by
  have hq : fpgaDisq a = true := by
    unfold fpgaDisq
    rcases h with h | h <;> simp [h]
  rw [ws_fpga a b w? hq]
  exact ⟨rfl, rfl⟩

/-- C1 witness: a competitor whose core string contains "FPGA" is
disqualified against a blank candidate. -/
theorem fpga_disqualification_zeroes_witness :
    (weighted_similarity (attrOf [("core", Value.str "XC7A200T-FPGA")]) (attrOf [])
      Option.none).1 = 0 ∧
    (weighted_similarity (attrOf [("core", Value.str "XC7A200T-FPGA")]) (attrOf [])
      Option.none).2
      = (weightsUsed (attrOf [("core", Value.str "XC7A200T-FPGA")]) Option.none).map
          (fun kv => (kv.1, (0 : ℚ))) :=
  fpga_disqualification_zeroes _ _ _ (Or.inl (by with_unfolding_all decide))

/-- C3: for every pair of attribute sets and every supplied weight
table with non-negative weights (or the derived default when none is
supplied), the percentage lies in [0, 100] and every per-feature score
lies in [0, 1]. -/
theorem weighted_similarity_range (a b : AttrSet) (w? : Option Weights)
    (h : w?.elim True (fun w => ∀ kv ∈ w, (0 : ℚ) ≤ kv.2)) :
    0 ≤ (weighted_similarity a b w?).1 ∧ (weighted_similarity a b w?).1 ≤ 100 ∧
    ∀ kv ∈ (weighted_similarity a b w?).2, 0 ≤ kv.2 ∧ kv.2 ≤ 1 := by
  apply weighted_similarity_bounds
  cases w? with
  | none => exact effectiveWeights_nonneg a
  | some w => exact h

/-- C3 witness: the range invariant at a concrete pair and a concrete
non-negative weight table. -/
theorem weighted_similarity_range_witness :
    0 ≤ (weighted_similarity (attrOf [("fpu", Value.num 1)]) (attrOf [])
        (some [("fpu", 1/2), ("uarts", 1/2)])).1 ∧
    (weighted_similarity (attrOf [("fpu", Value.num 1)]) (attrOf [])
        (some [("fpu", 1/2), ("uarts", 1/2)])).1 ≤ 100 ∧
    ∀ kv ∈ (weighted_similarity (attrOf [("fpu", Value.num 1)]) (attrOf [])
        (some [("fpu", 1/2), ("uarts", 1/2)])).2, 0 ≤ kv.2 ∧ kv.2 ≤ 1 :=
  weighted_similarity_range _ _ _
    (by simp only [Option.elim]; with_unfolding_all decide)

/-- C5: for every competitor, `best_match` on an empty candidate list
returns exactly the sentinel `(None, -1.0, {})`, and this sentinel is
distinguishable from any legitimate score because default-table
percentages are never negative. -/
theorem best_match_empty_sentinel (t : AttrSet) :
    best_match t [] Option.none = (Option.none, -1, []) ∧
    ∀ b : AttrSet, 0 ≤ (weighted_similarity t b Option.none).1 :=
  ⟨rfl, fun b => ws_default_nonneg t b⟩

/-- C6: the effective default weight table sums to exactly 1 (hence
within 1e-9 of 1.0); when the competitor's clock requirement exceeds
300 the pre-normalization clock weight is 0.20 (0.15 when it exceeds
200) and the pre-normalization total is preserved. -/
theorem default_weights_normalized (a : AttrSet) :
    sumWeights (effectiveWeights a) = 1 ∧
    |sumWeights (effectiveWeights a) - 1| ≤ 1/1000000000 ∧
    (300 < reqClock a →
      lookupA (adjustedOf (targetClockW a)) "max_clock_mhz" = some (1/5) ∧
      sumWeights (adjustedOf (targetClockW a)) = sumWeights DEFAULT_WEIGHTS) ∧
    (200 < reqClock a → reqClock a ≤ 300 →
      lookupA (adjustedOf (targetClockW a)) "max_clock_mhz" = some (3/20) ∧
      sumWeights (adjustedOf (targetClockW a)) = sumWeights DEFAULT_WEIGHTS) := by
  refine ⟨effectiveWeights_sum a, ?_, ?_, ?_⟩
  · rw [effectiveWeights_sum a]
    norm_num
  · intro h
    have ht : targetClockW a = 1/5 := by
      unfold targetClockW
      rw [if_pos h]
    rw [ht]
    with_unfolding_all decide
  · intro h1 h2
    have ht : targetClockW a = 3/20 := by
      unfold targetClockW
      rw [if_neg (not_lt.2 h2), if_pos h1]
    rw [ht]
    with_unfolding_all decide

/-- C6 witness: with a 400 MHz competitor requirement, the
pre-normalization clock weight is 0.20 and the total is preserved. -/
theorem default_weights_normalized_witness :
    lookupA (adjustedOf (targetClockW (attrOf [("max_clock_mhz", Value.num 400)])))
      "max_clock_mhz" = some (1/5) ∧
    sumWeights (adjustedOf (targetClockW (attrOf [("max_clock_mhz", Value.num 400)])))
      = sumWeights DEFAULT_WEIGHTS :=
  (default_weights_normalized (attrOf [("max_clock_mhz", Value.num 400)])).2.2.1
    (by with_unfolding_all decide)

/-- C10: if the competitor's `is_fpga` attribute is a non-empty string
that cannot be parsed as an integer (such as "false", "no" or "off"),
the FPGA flag is treated as set and `weighted_similarity` returns the
disqualification result. -/
theorem is_fpga_unparsable_disqualifies (a b : AttrSet) (w? : Option Weights) (s : String)
    (h1 : a "is_fpga" = some (Value.str s)) (h2 : s ≠ "")
    (h3 : parsePyInt s = Option.none) :
    (weighted_similarity a b w?).1 = 0 ∧
    ∀ kv ∈ (weighted_similarity a b w?).2, kv.2 = 0 := by
  have hf : isFpgaFlag a = true := by
    unfold isFpgaFlag
    rw [h1]
    simp only [Option.getD_some]
    rw [show pyInt (Value.str s) = Option.none from by simp [pyInt, h3]]
    simp [truthy, h2]
  have hq : fpgaDisq a = true := by
    unfold fpgaDisq
    simp [hf]
  rw [ws_fpga a b w? hq]
  refine ⟨rfl, ?_⟩
  intro kv hkv
  simp only [List.mem_map] at hkv
  obtain ⟨x, _, rfl⟩ := hkv
  rfl

/-- C10 witness: the textual falsy form "false" in `is_fpga`
disqualifies the competitor. -/
theorem is_fpga_unparsable_disqualifies_witness :
    (weighted_similarity (attrOf [("is_fpga", Value.str "false")]) (attrOf [])
      Option.none).1 = 0 ∧
    ∀ kv ∈ (weighted_similarity (attrOf [("is_fpga", Value.str "false")]) (attrOf [])
      Option.none).2, kv.2 = 0 :=
  is_fpga_unparsable_disqualifies _ _ _ "false"
    (by with_unfolding_all decide) (by decide) (by with_unfolding_all decide)

/-- C2: when the competitor's DSP flag is truthy (and the FPGA
disqualification does not fire), the default-table percentage equals
`max 0 (base - 20)` where `base` is what the same call returns with
the flag removed; the per-feature map is unchanged. -/
theorem dsp_penalty_composition (a b : AttrSet)
    (h1 : isDspFlag a = true) (h2 : fpgaDisq a = false) :
    (weighted_similarity a b Option.none).1
      = max 0 ((weighted_similarity (removeKey a "is_dsp") b Option.none).1 - 20) ∧
    (weighted_similarity a b Option.none).2
      = (weighted_similarity (removeKey a "is_dsp") b Option.none).2 := by
  have hW : effectiveWeights (removeKey a "is_dsp") = effectiveWeights a :=
    effectiveWeights_removeDsp a
  have hQ : fpgaDisq (removeKey a "is_dsp") = false := by
    rw [fpgaDisq_removeDsp, h2]
  have hD : isDspFlag (removeKey a "is_dsp") = false := isDspFlag_removeDsp a
  have hpf : perFeatureOf (removeKey a "is_dsp") b (effectiveWeights a)
      = perFeatureOf a b (effectiveWeights a) :=
    perFeatureOf_removeDsp a b _ (effectiveWeights_no_dsp_key a)
  have hsc : scoreOf (removeKey a "is_dsp") b (effectiveWeights a)
      = scoreOf a b (effectiveWeights a) :=
    scoreOf_removeDsp a b _ (effectiveWeights_no_dsp_key a)
  have hns : ¬ sumWeights (effectiveWeights a) ≤ 0 := by
    rw [effectiveWeights_sum]
    norm_num
  have lhs_eq : weighted_similarity a b Option.none
      = (max 0 (scoreOf a b (effectiveWeights a)
            / sumWeights (effectiveWeights a) * 100 - 20),
         perFeatureOf a b (effectiveWeights a)) := by
    unfold weighted_similarity
    rw [h2]
    simp only [Bool.false_eq_true, if_false, weightsUsed_none]
    rw [if_neg hns, h1]
    simp
  have rhs_eq : weighted_similarity (removeKey a "is_dsp") b Option.none
      = (scoreOf a b (effectiveWeights a) / sumWeights (effectiveWeights a) * 100,
         perFeatureOf a b (effectiveWeights a)) := by
    unfold weighted_similarity
    rw [hQ]
    simp only [Bool.false_eq_true, if_false, weightsUsed_none, hW]
    rw [if_neg hns, hD]
    simp [hsc, hpf]
  rw [lhs_eq, rhs_eq]
  exact ⟨rfl, rfl⟩

/-- C2 witness: a DSP-flagged competitor is scored exactly 20 points
below the same competitor without the flag, at a concrete input. -/
theorem dsp_penalty_composition_witness :
    (weighted_similarity (attrOf [("is_dsp", Value.str "1"), ("fpu", Value.num 1)])
        (attrOf [("fpu", Value.num 1)]) Option.none).1
      = max 0 ((weighted_similarity
          (removeKey (attrOf [("is_dsp", Value.str "1"), ("fpu", Value.num 1)]) "is_dsp")
          (attrOf [("fpu", Value.num 1)]) Option.none).1 - 20) ∧
    (weighted_similarity (attrOf [("is_dsp", Value.str "1"), ("fpu", Value.num 1)])
        (attrOf [("fpu", Value.num 1)]) Option.none).2
      = (weighted_similarity
          (removeKey (attrOf [("is_dsp", Value.str "1"), ("fpu", Value.num 1)]) "is_dsp")
          (attrOf [("fpu", Value.num 1)]) Option.none).2 :=
  dsp_penalty_composition _ _ (by with_unfolding_all decide) (by with_unfolding_all decide)

/-- C4: for every competitor and non-empty candidate list,
`best_match` returns a candidate attaining the maximum default-table
percentage, with that percentage and that candidate's score map, and
every candidate listed before the returned one scores strictly
lower (first-wins tie-break). -/
theorem best_match_maximal_first (t : AttrSet) (cs : List AttrSet) (h : cs ≠ []) :
    ∃ r l₁ l₂, cs = l₁ ++ r :: l₂
      ∧ best_match t cs Option.none
          = (some r, (weighted_similarity t r Option.none).1,
              (weighted_similarity t r Option.none).2)
      ∧ (∀ c ∈ cs,
          (weighted_similarity t c Option.none).1 ≤ (weighted_similarity t r Option.none).1)
      ∧ (∀ c ∈ l₁,
          (weighted_similarity t c Option.none).1
            < (weighted_similarity t r Option.none).1) := by
  cases cs with
  | nil => exact absurd rfl h
  | cons c₀ rest =>
      have h0 : ((Option.none, -1, []) :
          Option AttrSet × ℚ × List (String × ℚ)).2.1
          < (weighted_similarity t c₀ Option.none).1 :=
        lt_of_lt_of_le (by norm_num) (ws_default_nonneg t c₀)
      have hbm : best_match t (c₀ :: rest) Option.none
          = bestGo t Option.none rest
              (some c₀, (weighted_similarity t c₀ Option.none).1,
                (weighted_similarity t c₀ Option.none).2) := by
        show bestGo t Option.none (c₀ :: rest) (Option.none, -1, []) = _
        rw [bestGo, if_pos h0]
      obtain ⟨r, heq, hdr, hall, hpos⟩ := bestGo_spec t rest c₀
      rcases hpos with rfl | ⟨l₁, l₂, hsplit, hlt, hl₁⟩
      · refine ⟨r, [], rest, rfl, by rw [hbm]; exact heq, ?_, by simp⟩
        intro c hc
        rcases List.mem_cons.1 hc with rfl | hc'
        · exact hdr
        · exact hall c hc'
      · refine ⟨r, c₀ :: l₁, l₂, by rw [hsplit, List.cons_append],
          by rw [hbm]; exact heq, ?_, ?_⟩
        · intro c hc
          rcases List.mem_cons.1 hc with rfl | hc'
          · exact le_of_lt hlt
          · exact hall c hc'
        · intro c hc
          rcases List.mem_cons.1 hc with rfl | hc'
          · exact hlt
          · exact hl₁ c hc'

/-- C4 witness: on a concrete two-candidate list the characterization
holds. -/
theorem best_match_maximal_first_witness :
    ∃ r l₁ l₂,
      [attrOf [("fpu", Value.num 1)], attrOf []]
        = l₁ ++ r :: l₂
      ∧ best_match (attrOf [("fpu", Value.num 1)])
          [attrOf [("fpu", Value.num 1)], attrOf []] Option.none
          = (some r,
              (weighted_similarity (attrOf [("fpu", Value.num 1)]) r Option.none).1,
              (weighted_similarity (attrOf [("fpu", Value.num 1)]) r Option.none).2)
      ∧ (∀ c ∈ [attrOf [("fpu", Value.num 1)], attrOf []],
          (weighted_similarity (attrOf [("fpu", Value.num 1)]) c Option.none).1
            ≤ (weighted_similarity (attrOf [("fpu", Value.num 1)]) r Option.none).1)
      ∧ (∀ c ∈ l₁,
          (weighted_similarity (attrOf [("fpu", Value.num 1)]) c Option.none).1
            < (weighted_similarity (attrOf [("fpu", Value.num 1)]) r Option.none).1) :=
  best_match_maximal_first _ _ (by simp)

/-- C7 counterexample: `dsp_core` is claimed to coerce "yes" on both
sides to 1.0, but it is not in the source's `BOOL_DIR` set, so its
values are parsed numerically and "yes" is unparsable: the similarity
is 0, not 1. -/
theorem bool_coercion_dsp_core_cex :
    feature_similarity "dsp_core" (Value.str "yes") (Value.str "yes") = 0 ∧
    feature_similarity "dsp_core" (Value.str "yes") (Value.str "yes") ≠ 1 := by
  with_unfolding_all decide

/-- C7 amended: only the four directional extras (`input_capture`,
`ethernet`, `emif`, `spi_slave`) coerce truthy/falsy string forms to
{0.0, 1.0} before directional coverage, and for each of them
"yes" vs "yes" scores 1.0; the remaining boolean-coded features parse
strings numerically, so "yes" vs "yes" scores 0.0 there. -/
theorem bool_coercion_dir_extras_only :
    (∀ s ∈ (["yes", "true", "1", "on"] : List String), to01 (Value.str s) = 1) ∧
    (∀ s ∈ (["no", "false", "0", "off"] : List String), to01 (Value.str s) = 0) ∧
    (∀ f ∈ BOOL_DIR, ∀ cv ov : Value,
      feature_similarity f cv ov
        = coverage_similarity (Value.num (to01 cv)) (Value.num (to01 ov))) ∧
    (∀ f ∈ BOOL_DIR, feature_similarity f (Value.str "yes") (Value.str "yes") = 1) ∧
    (∀ f ∈ (["dsp_core", "power_mgmt", "clock_mgmt", "qei", "internal_osc",
        "security_features", "eeprom"] : List String),
      feature_similarity f (Value.str "yes") (Value.str "yes") = 0) := by
  refine ⟨by with_unfolding_all decide, by with_unfolding_all decide, ?_,
    by with_unfolding_all decide, by with_unfolding_all decide⟩
  intro f hf cv ov
  fin_cases hf <;> rfl

/-- C7 amended witness: the coercion at a concrete truthy form. -/
theorem bool_coercion_dir_extras_only_witness :
    to01 (Value.str "yes") = 1 :=
  bool_coercion_dir_extras_only.1 "yes" (by simp)

/-- C8 counterexample: for the directional-extra feature `ethernet`,
an unparsable competitor string falls back to Python truthiness
(1.0 for a non-empty string), so the feature scores 1.0, not the
claimed 0.0. -/
theorem unparsable_ethernet_cex :
    feature_similarity "ethernet" (Value.str "maybe") (Value.str "yes") = 1 ∧
    feature_similarity "ethernet" (Value.str "maybe") (Value.str "yes") ≠ 0 := by
  with_unfolding_all decide

/-- C8 amended: for every non-categorical feature outside the
`BOOL_DIR` set, an unparsable value on either side yields feature
similarity 0.0; for `BOOL_DIR` features unparsable strings instead
fall back to truthiness.  The overall computation is never aborted:
the returned score map always covers exactly the weight table's
keys. -/
theorem unparsable_fails_closed_amended :
    (∀ (f : String) (cv ov : Value), f ≠ "core" → f ∉ BOOL_DIR →
      (pyFloat (pyOrZero cv) = Option.none ∨ pyFloat (pyOrZero ov) = Option.none) →
      feature_similarity f cv ov = 0) ∧
    (∀ (a b : AttrSet) (w? : Option Weights),
      ((weighted_similarity a b w?).2).map Prod.fst = (weightsUsed a w?).map Prod.fst) := by
  constructor
  · intro f cv ov hc hb hp
    unfold feature_similarity
    rw [if_neg hc]
    split_ifs with h2 h3
    · exact coverage_fail_zero cv ov hp
    · rcases hp with hp | hp
      · rw [hp]
      · rw [hp]
        rcases pyFloat (pyOrZero cv) with _ | q <;> rfl
    · rcases hp with hp | hp
      · rw [hp]
      · rw [hp]
        rcases pyFloat (pyOrZero cv) with _ | q <;> rfl
  · intro a b w?
    unfold weighted_similarity
    split_ifs <;> simp [perFeatureOf]

/-- C8 amended witness: an unparsable string on the competitor side of
a count feature scores 0. -/
theorem unparsable_fails_closed_amended_witness :
    feature_similarity "uarts" (Value.str "abc") (Value.num 1) = 0 :=
  unparsable_fails_closed_amended.1 "uarts" (Value.str "abc") (Value.num 1)
    (by decide) (by decide) (Or.inl (by with_unfolding_all decide))

/-- C9 counterexample: with `core` missing from both attribute sets,
Python stringifies the missing values as "None" on both sides, so the
recorded core score is 1.0, not the claimed 0.0. -/
theorem missing_core_scores_one_cex :
    lookupA (weighted_similarity (attrOf []) (attrOf []) Option.none).2 "core"
      = some 1 ∧
    lookupA (weighted_similarity (attrOf []) (attrOf []) Option.none).2 "core"
      ≠ some 0 := by
  with_unfolding_all decide

/-- C9 amended: an empty-string `core` value on either side records
core score 0.0, but a missing `core` key behaves as the string "None"
(Python `str(None)`): missing on both sides records 1.0, and missing
on one side records 0.0 unless the other side's core string is
literally "None". -/
theorem core_missing_as_none_string (a b : AttrSet) :
    ((a "core" = some (Value.str "") ∨ b "core" = some (Value.str "")) →
      lookupA (weighted_similarity a b Option.none).2 "core" = some 0) ∧
    (fpgaDisq a = false → a "core" = Option.none → b "core" = Option.none →
      lookupA (weighted_similarity a b Option.none).2 "core" = some 1) ∧
    (fpgaDisq a = false → a "core" = Option.none →
      ∀ s : String, b "core" = some (Value.str s) → s ≠ "None" →
      lookupA (weighted_similarity a b Option.none).2 "core" = some 0) ∧
    (fpgaDisq a = false → b "core" = Option.none →
      ∀ s : String, a "core" = some (Value.str s) → s ≠ "None" →
      lookupA (weighted_similarity a b Option.none).2 "core" = some 0) := by
  refine ⟨?_, ?_, ?_, ?_⟩
  · intro h
    cases hq : fpgaDisq a with
    | true =>
        rw [ws_fpga a b Option.none hq, weightsUsed_none]
        exact lookupA_zero_core a
    | false =>
        rw [ws_default_pf a b hq, lookupA_pf_core, feature_similarity_core,
          getF_core, getF_core]
        rcases h with h | h
        · rw [h]
          simp [core_similarity, pyStrOfV]
        · rw [h]
          simp [core_similarity, pyStrOfV]
  · intro hq h1 h2
    rw [ws_default_pf a b hq, lookupA_pf_core, feature_similarity_core,
      getF_core, getF_core, h1, h2]
    with_unfolding_all decide
  · intro hq h1 s hs hne
    rw [ws_default_pf a b hq, lookupA_pf_core, feature_similarity_core,
      getF_core, getF_core, h1, hs]
    simp only [Option.getD_none, Option.getD_some, pyStrOfV]
    rw [core_similarity_none_left s hne]
  · intro hq h1 s hs hne
    rw [ws_default_pf a b hq, lookupA_pf_core, feature_similarity_core,
      getF_core, getF_core, h1, hs]
    simp only [Option.getD_none, Option.getD_some, pyStrOfV]
    rw [core_similarity_none_right s hne]

/-- C9 amended witness: both sides missing `core` records score 1. -/
theorem core_missing_as_none_string_witness :
    lookupA (weighted_similarity (attrOf []) (attrOf []) Option.none).2 "core"
      = some 1 :=
  (core_missing_as_none_string (attrOf []) (attrOf [])).2.1
    (by with_unfolding_all decide) rfl rfl

end MCUCom
